import Mathlib

/-!
Verification of the adaptive autocomplete-extraction engine (src/ExtractV3.js).

The development shallowly embeds the core of ExtractV3.js:

* `queryAPIRun` embeds `queryAPI` (lines 114-141): the retry/backoff layer,
  parameterised by the list of outcomes the network produces for the
  successive attempts of one prefix.
* `adjustConcurrency`, `concOnSuccess`, `concOnRateLimit`,
  `monitorBacklogStep` embed the concurrency controller
  (lines 82-106 and the adjustments inside `queryAPI`).
* `SysState`, `enqueue`, `processPrefix` embed the frontier and aggregator
  (lines 147-172): the visited/discovered sets, the task queue and the
  expansion logic.
* `dispatchStep` / `admittedTimes` model the rate-limited dispatcher.

JS `Set` objects are modelled as duplicate-free insertion-ordered lists
(`setAdd` inserts only when absent, exactly like `Set.prototype.add`).
JS numbers involved are small integers; `Math.floor(c * 0.9)` for the
integer concurrency values `c ≤ 80` that occur equals `c * 9 / 10` in
exact integer arithmetic (the double rounding error of `0.9` is far below
one half ulp at these magnitudes), so it is embedded as Nat `c * 9 / 10`.
-/

namespace ExtractV3

/-! ## Configuration constants (ExtractV3.js lines 6-30) -/

def BASE_DELAY_MS : Nat := 500

def JITTER_MS : Nat := 200

def RATE_LIMIT_COOLDOWN_MS : Nat := 1000

def MAX_RESULTS_PER_QUERY : Nat := 15

/-- Valid characters for query expansion (line 13): digits, lowercase
letters, plus, dot, hyphen, and space as the three-character token "%20". -/
def VALID_CHARACTERS : List String :=
  ["0", "1", "2", "3", "4", "5", "6", "7", "8", "9",
   "a", "b", "c", "d", "e", "f", "g", "h", "i", "j", "k", "l", "m",
   "n", "o", "p", "q", "r", "s", "t", "u", "v", "w", "x", "y", "z",
   "+", ".", "-", "%20"]

def INITIAL_CONCURRENCY : Nat := 26

def MIN_CONCURRENCY : Nat := 5

def MAX_CONCURRENCY : Nat := 80

def CONCURRENCY_ADJUSTMENT_UP : Nat := 1

def BACKLOG_HIGH_THRESHOLD : Nat := 100

def BACKLOG_LOW_THRESHOLD : Nat := 20

/-- Rate limiter configuration of the queue (lines 39-43):
80 requests per 60000 ms interval. -/
def INTERVAL_CAP : Nat := 80

def INTERVAL_MS : Nat := 60000

/-! ## Outcome of one HTTP attempt, as classified by `queryAPI`'s catch
logic (lines 117-137): a 2xx response carries `response.data.results`,
which may be absent (`none`), a 429 error is a rate limit, and every
other error is handled by the transient branch. -/

inductive Outcome where
  | success (results : Option (List String))
  | rateLimited
  | transientError
  deriving Repr, DecidableEq

def Outcome.isSuccess : Outcome → Bool
  | .success _ => true
  | _ => false

/-- The observable trace of one `queryAPI(prefix, attempt)` invocation:
the value it resolves to (`none` when the supplied outcome list is
exhausted before the recursion resolves), the number of network attempts
made (`totalRequests` is incremented once per attempt, line 115), and the
base delays scheduled before each retry, in order. -/
structure QueryTrace where
  result : Option (List String)
  requests : Nat
  delays : List Nat
  deriving Repr, DecidableEq

/-- Embedding of `queryAPI` (ExtractV3.js lines 114-141).
On success it returns `response.data.results || []` (line 123).
On a 429 it waits `RATE_LIMIT_COOLDOWN_MS` and recurses with
`attempt + 1` (lines 126-129).  On any other error with `attempt <= 5`
it waits `BASE_DELAY_MS * 2 ^ attempt` and recurses with `attempt + 1`
(lines 131-136); once `attempt > 5` it returns `[]` (lines 137-140). -/
def queryAPIRun : List Outcome → Nat → QueryTrace
  | [], _ => { result := none, requests := 0, delays := [] }
  | o :: rest, attempt =>
    match o with
    | .success r => { result := some (r.getD []), requests := 1, delays := [] }
    | .rateLimited =>
      let t := queryAPIRun rest (attempt + 1)
      { result := t.result, requests := t.requests + 1,
        delays := RATE_LIMIT_COOLDOWN_MS :: t.delays }
    | .transientError =>
      if attempt ≤ 5 then
        let t := queryAPIRun rest (attempt + 1)
        { result := t.result, requests := t.requests + 1,
          delays := BASE_DELAY_MS * 2 ^ attempt :: t.delays }
      else { result := some [], requests := 1, delays := [] }

/-- Embedding of `delay(ms)` (lines 51-54): the actual wait is the base
delay plus a jitter sample `Math.floor(Math.random() * JITTER_MS)`,
i.e. a value in `[0, JITTER_MS)`; the sample is modelled as an arbitrary
natural reduced mod `JITTER_MS`. -/
def delayTotal (ms jitterSample : Nat) : Nat := ms + jitterSample % JITTER_MS

/-! ## Claims about the retry/backoff layer -/

/-- C1 (counterexample): the claim that 429 retries do not consume the
bounded transient-retry budget is false.  Five 429 responses followed by a
single transient error and then a success resolve to `[]` (the prefix is
abandoned), although only one transient error occurred, far under the
budget of 5: the 429 branch passes `attempt + 1` to the recursive call,
so the five 429s pushed `attempt` to 6 and exhausted the budget.  The
same single transient error without the preceding 429s reaches the
success. -/
theorem C1_rateLimit_consumes_budget_cex :
    (queryAPIRun [Outcome.rateLimited, Outcome.rateLimited, Outcome.rateLimited,
        Outcome.rateLimited, Outcome.rateLimited, Outcome.transientError,
        Outcome.success (some ["x"])] 1).result = some []
    ∧ (queryAPIRun [Outcome.transientError, Outcome.success (some ["x"])] 1).result
        = some ["x"] := by
  constructor <;> rfl

/-- C1 (amended): a 429 outcome always schedules the same task again after
the fixed `RATE_LIMIT_COOLDOWN_MS` cooldown, with no cap on the number of
429 retries: for every attempt counter value, any finite number `k` of
consecutive 429 responses followed by a success resolves to exactly that
success, making `k + 1` network attempts and scheduling exactly `k`
cooldown delays of the fixed length. -/
theorem C1_rateLimit_retry_until_success (k : Nat) (res : List String)
    (rest : List Outcome) (a : Nat) :
    queryAPIRun (List.replicate k Outcome.rateLimited
        ++ Outcome.success (some res) :: rest) a
      = { result := some res, requests := k + 1,
          delays := List.replicate k RATE_LIMIT_COOLDOWN_MS } := by
  induction k generalizing a with
  | zero => simp [queryAPIRun]
  | succ n ih => simp [List.replicate_succ, queryAPIRun, ih]

/-- C3: a transient (non-429) error at attempt `a ≤ 5` schedules a retry
after an exponential backoff base delay of `BASE_DELAY_MS * 2 ^ a`
(`delay` adds a jitter bounded by `JITTER_MS` on top of every base delay);
at attempt `a > 5` the budget is exhausted and the prefix resolves to the
terminal empty result; six consecutive transient failures starting from
attempt 1 make six network attempts, schedule the five backoff delays
1000, 2000, 4000, 8000, 16000 ms, and abandon the prefix at attempt 6. -/
theorem C3_transient_backoff_budget :
    (∀ rest a, a ≤ 5 → queryAPIRun (Outcome.transientError :: rest) a
        = { result := (queryAPIRun rest (a + 1)).result,
            requests := (queryAPIRun rest (a + 1)).requests + 1,
            delays := BASE_DELAY_MS * 2 ^ a :: (queryAPIRun rest (a + 1)).delays })
    ∧ (∀ rest a, 5 < a → queryAPIRun (Outcome.transientError :: rest) a
        = { result := some [], requests := 1, delays := [] })
    ∧ (∀ ms j, ms ≤ delayTotal ms j ∧ delayTotal ms j < ms + JITTER_MS)
    ∧ queryAPIRun (List.replicate 6 Outcome.transientError) 1
        = { result := some [], requests := 6,
            delays := [1000, 2000, 4000, 8000, 16000] } := by
  refine ⟨fun rest a h => ?_, fun rest a h => ?_, fun ms j => ?_, by rfl⟩
  · simp [queryAPIRun, h]
  · simp [queryAPIRun, Nat.not_le.mpr h]
  · unfold delayTotal JITTER_MS
    omega

/-- Witness for C3 at concrete inputs. -/
theorem C3_transient_backoff_budget_witness :
    (queryAPIRun [Outcome.transientError] 1
      = { result := (queryAPIRun [] 2).result,
          requests := (queryAPIRun [] 2).requests + 1,
          delays := BASE_DELAY_MS * 2 ^ 1 :: (queryAPIRun [] 2).delays })
    ∧ (queryAPIRun [Outcome.transientError] 6
      = { result := some [], requests := 1, delays := [] })
    ∧ (0 ≤ delayTotal 0 7 ∧ delayTotal 0 7 < 0 + JITTER_MS) :=
  ⟨C3_transient_backoff_budget.1 [] 1 (by decide),
   C3_transient_backoff_budget.2.1 [] 6 (by decide),
   C3_transient_backoff_budget.2.2.1 0 7⟩

/-- C10: `queryAPI` is total at its interface — it never rethrows.  A 2xx
response whose body lacks the `results` field resolves to the empty array
(`response.data.results || []`); exhaustion of the transient budget
resolves to the empty array; and whenever the outcome stream contains a
success, the recursion resolves to some array. -/
theorem C10_queryAPI_total_interface :
    (∀ rest a, (queryAPIRun (Outcome.success none :: rest) a).result = some [])
    ∧ (∀ rest a, 5 < a →
        (queryAPIRun (Outcome.transientError :: rest) a).result = some [])
    ∧ (∀ rs a, (∃ o ∈ rs, o.isSuccess = true) →
        (queryAPIRun rs a).result.isSome = true) := by
  refine ⟨fun rest a => rfl, fun rest a h => ?_, fun rs => ?_⟩
  · simp [queryAPIRun, Nat.not_le.mpr h]
  · induction rs with
    | nil => intro a h; simp at h
    | cons o rest ih =>
      intro a h
      match o with
      | .success r => simp [queryAPIRun]
      | .rateLimited =>
        have h' : ∃ o' ∈ rest, o'.isSuccess = true := by
          rcases h with ⟨o', ho', hs⟩
          rcases List.mem_cons.mp ho' with he | hm
          · rw [he] at hs; simp [Outcome.isSuccess] at hs
          · exact ⟨o', hm, hs⟩
        simpa [queryAPIRun] using ih (a + 1) h'
      | .transientError =>
        by_cases ha : a ≤ 5
        · have h' : ∃ o' ∈ rest, o'.isSuccess = true := by
            rcases h with ⟨o', ho', hs⟩
            rcases List.mem_cons.mp ho' with he | hm
            · rw [he] at hs; simp [Outcome.isSuccess] at hs
            · exact ⟨o', hm, hs⟩
          simpa [queryAPIRun, ha] using ih (a + 1) h'
        · simp [queryAPIRun, ha]

/-- Witness for C10 at concrete inputs. -/
theorem C10_queryAPI_total_interface_witness :
    (queryAPIRun [Outcome.transientError] 6).result = some []
    ∧ (queryAPIRun [Outcome.success (some ["x"])] 1).result.isSome = true :=
  ⟨C10_queryAPI_total_interface.2.1 [] 6 (by decide),
   C10_queryAPI_total_interface.2.2 [Outcome.success (some ["x"])] 1
     ⟨Outcome.success (some ["x"]), by simp, rfl⟩⟩

/-! ## Concurrency controller (ExtractV3.js lines 82-106, 114-129) -/

/-- Embedding of `adjustConcurrency` (lines 82-86): every write to
`currentConcurrency` is clamped into `[MIN_CONCURRENCY, MAX_CONCURRENCY]`. -/
def adjustConcurrency (newConcurrency : Nat) : Nat :=
  max MIN_CONCURRENCY (min MAX_CONCURRENCY newConcurrency)

/-- Concurrency update on a successful response (line 122):
`adjustConcurrency(currentConcurrency + CONCURRENCY_ADJUSTMENT_UP)`. -/
def concOnSuccess (c : Nat) : Nat := adjustConcurrency (c + CONCURRENCY_ADJUSTMENT_UP)

/-- Concurrency update on a 429 response (line 127):
`adjustConcurrency(Math.floor(currentConcurrency * 0.9))`, which for the
integer values `c ≤ 80` reached here equals `c * 9 / 10`. -/
def concOnRateLimit (c : Nat) : Nat := adjustConcurrency (c * 9 / 10)

/-- Embedding of one tick of `monitorBacklog` (lines 91-106): with
`backlog = queue.pending + queue.size`, a backlog above the high
threshold multiplies concurrency down, a backlog below the low threshold
with room to grow adds the additive step, and otherwise concurrency is
untouched. -/
def monitorBacklogStep (pending size c : Nat) : Nat :=
  let backlog := pending + size
  if backlog > BACKLOG_HIGH_THRESHOLD then adjustConcurrency (c * 9 / 10)
  else if backlog < BACKLOG_LOW_THRESHOLD ∧ c < MAX_CONCURRENCY then
    adjustConcurrency (c + CONCURRENCY_ADJUSTMENT_UP)
  else c

/-- The two feedback sources that mutate `currentConcurrency`: request
outcomes inside `queryAPI` and the periodic backlog monitor. -/
inductive ConcEvent where
  | success
  | rateLimit
  | backlog (pending size : Nat)

def concStep (c : Nat) : ConcEvent → Nat
  | .success => concOnSuccess c
  | .rateLimit => concOnRateLimit c
  | .backlog p s => monitorBacklogStep p s c

lemma adjustConcurrency_bounds (x : Nat) :
    MIN_CONCURRENCY ≤ adjustConcurrency x ∧ adjustConcurrency x ≤ MAX_CONCURRENCY := by
  unfold adjustConcurrency MIN_CONCURRENCY MAX_CONCURRENCY
  omega

lemma concStep_bounds (c : Nat) (h1 : MIN_CONCURRENCY ≤ c) (h2 : c ≤ MAX_CONCURRENCY)
    (e : ConcEvent) :
    MIN_CONCURRENCY ≤ concStep c e ∧ concStep c e ≤ MAX_CONCURRENCY := by
  cases e with
  | success => exact adjustConcurrency_bounds _
  | rateLimit => exact adjustConcurrency_bounds _
  | backlog p s =>
    show MIN_CONCURRENCY ≤ monitorBacklogStep p s c
        ∧ monitorBacklogStep p s c ≤ MAX_CONCURRENCY
    unfold monitorBacklogStep
    dsimp only
    split
    · exact adjustConcurrency_bounds _
    · split
      · exact adjustConcurrency_bounds _
      · exact ⟨h1, h2⟩

/-- C6: the concurrency bound invariant.  Every mutation of
`currentConcurrency` passes through `adjustConcurrency`, whose result
always lies in `[MIN_CONCURRENCY, MAX_CONCURRENCY]`; the initial value 26
lies in the bounds; and along any sequence of feedback events from either
source the value stays in `[5, 80]`. -/
theorem C6_concurrency_bound_invariant :
    (∀ x, MIN_CONCURRENCY ≤ adjustConcurrency x
        ∧ adjustConcurrency x ≤ MAX_CONCURRENCY)
    ∧ (MIN_CONCURRENCY ≤ INITIAL_CONCURRENCY
        ∧ INITIAL_CONCURRENCY ≤ MAX_CONCURRENCY)
    ∧ (∀ events : List ConcEvent,
        MIN_CONCURRENCY ≤ events.foldl concStep INITIAL_CONCURRENCY
        ∧ events.foldl concStep INITIAL_CONCURRENCY ≤ MAX_CONCURRENCY) := by
  refine ⟨adjustConcurrency_bounds, by decide, fun events => ?_⟩
  have key : ∀ (es : List ConcEvent) (c : Nat),
      MIN_CONCURRENCY ≤ c → c ≤ MAX_CONCURRENCY →
      MIN_CONCURRENCY ≤ es.foldl concStep c ∧ es.foldl concStep c ≤ MAX_CONCURRENCY := by
    intro es
    induction es with
    | nil => intro c h1 h2; exact ⟨h1, h2⟩
    | cons e rest ih =>
      intro c h1 h2
      have hb := concStep_bounds c h1 h2 e
      exact ih (concStep c e) hb.1 hb.2
  exact key events INITIAL_CONCURRENCY (by decide) (by decide)

/-- C7: the AIMD control law.  For any in-bounds concurrency value, a
success adds the additive step clamped at the maximum; a 429 multiplies
by the factor 0.9 (integer floor) clamped at the minimum; a backlog above
the high threshold multiplies down by the same factor clamped at the
minimum; and a backlog below the low threshold with `c` below the maximum
adds the additive step. -/
theorem C7_aimd_control_law (c : Nat)
    (h1 : MIN_CONCURRENCY ≤ c) (h2 : c ≤ MAX_CONCURRENCY) :
    concOnSuccess c = min MAX_CONCURRENCY (c + CONCURRENCY_ADJUSTMENT_UP)
    ∧ concOnRateLimit c = max MIN_CONCURRENCY (c * 9 / 10)
    ∧ (∀ pending size, BACKLOG_HIGH_THRESHOLD < pending + size →
        monitorBacklogStep pending size c = max MIN_CONCURRENCY (c * 9 / 10))
    ∧ (∀ pending size, pending + size < BACKLOG_LOW_THRESHOLD →
        c < MAX_CONCURRENCY →
        monitorBacklogStep pending size c = c + CONCURRENCY_ADJUSTMENT_UP) := by
  refine ⟨?_, ?_, fun pending size h => ?_, fun pending size h hc => ?_⟩
  · unfold concOnSuccess adjustConcurrency
    unfold MIN_CONCURRENCY MAX_CONCURRENCY CONCURRENCY_ADJUSTMENT_UP at *
    omega
  · unfold concOnRateLimit adjustConcurrency
    unfold MIN_CONCURRENCY MAX_CONCURRENCY at *
    omega
  · unfold monitorBacklogStep adjustConcurrency
    unfold MIN_CONCURRENCY MAX_CONCURRENCY BACKLOG_HIGH_THRESHOLD at *
    simp only [if_pos (by omega : pending + size > 100)]
    omega
  · unfold monitorBacklogStep adjustConcurrency
    unfold MIN_CONCURRENCY MAX_CONCURRENCY BACKLOG_HIGH_THRESHOLD
        BACKLOG_LOW_THRESHOLD CONCURRENCY_ADJUSTMENT_UP at *
    rw [if_neg (by omega), if_pos ⟨by omega, hc⟩]
    omega

/-- Witness for C7 at the initial concurrency value. -/
theorem C7_aimd_control_law_witness :
    concOnSuccess 26 = min MAX_CONCURRENCY (26 + CONCURRENCY_ADJUSTMENT_UP)
    ∧ monitorBacklogStep 150 0 26 = max MIN_CONCURRENCY (26 * 9 / 10)
    ∧ monitorBacklogStep 3 2 26 = 26 + CONCURRENCY_ADJUSTMENT_UP :=
  ⟨(C7_aimd_control_law 26 (by decide) (by decide)).1,
   (C7_aimd_control_law 26 (by decide) (by decide)).2.2.1 150 0 (by decide),
   (C7_aimd_control_law 26 (by decide) (by decide)).2.2.2 3 2 (by decide) (by decide)⟩

/-! ## Frontier, aggregator and task queue (ExtractV3.js lines 33-36, 147-172)

`processPrefix` is modelled over an oracle `String → List String` giving,
for each prefix, the array that `queryAPI` resolves to for it (`queryAPI`
always resolves to an array, see `C10_queryAPI_total_interface`).  The
task queue of the dispatcher is the list of prefixes whose
`queue.add(() => processPrefix(newPrefix))` closures are pending. -/

/-- Embedding of `Set.prototype.add` on an insertion-ordered
duplicate-free list: re-adding an existing element is a no-op. -/
def setAdd (s : List String) (x : String) : List String :=
  if x ∈ s then s else s ++ [x]

/-- Global mutable state of the run: `visitedPrefixes`, `discoveredNames`,
the pending task queue, and `totalRequests`. -/
structure SysState where
  visited : List String
  discovered : List String
  queue : List String
  totalRequests : Nat
  deriving Repr, DecidableEq

/-- The initial state (lines 33-36): empty sets, empty queue, zero
requests. -/
def initialState : SysState :=
  { visited := [], discovered := [], queue := [], totalRequests := 0 }

/-- Embedding of the enqueue site inside the expansion loop
(lines 162-166): `if (!visitedPrefixes.has(newPrefix)) { queue.add(() =>
processPrefix(newPrefix)); }` — the visited set is checked but NOT
mutated here; only the task queue grows. -/
def enqueue (st : SysState) (p : String) : SysState :=
  if p ∈ st.visited then st else { st with queue := st.queue ++ [p] }

/-- Embedding of `processPrefix` (lines 147-172): return immediately if
the prefix is already visited, otherwise insert it into
`visitedPrefixes`, query the API (one network attempt counted in
`totalRequests` for the resolving run), merge the results into
`discoveredNames`, and, exactly when the result count equals
`MAX_RESULTS_PER_QUERY`, enqueue every not-yet-visited child
`p ++ c` for `c` in `VALID_CHARACTERS`, in that order. -/
def processPrefix (oracle : String → List String) (st : SysState) (p : String) :
    SysState :=
  if p ∈ st.visited then st
  else if (oracle p).length = MAX_RESULTS_PER_QUERY then
    VALID_CHARACTERS.foldl (fun s c => enqueue s (p ++ c))
      { st with visited := st.visited ++ [p],
                totalRequests := st.totalRequests + 1,
                discovered := (oracle p).foldl setAdd st.discovered }
  else
    { st with visited := st.visited ++ [p],
              totalRequests := st.totalRequests + 1,
              discovered := (oracle p).foldl setAdd st.discovered }

/-- Running the dispatcher over a sequence of task executions. -/
def runSteps (oracle : String → List String) (st : SysState) (ps : List String) :
    SysState :=
  ps.foldl (processPrefix oracle) st

/-- The snapshot written by `saveProgress` (lines 58-67): a full overwrite
holding `totalRequests`, `discoveredNames.size` and
`Array.from(discoveredNames)`. -/
structure Snapshot where
  totalRequests : Nat
  totalNames : Nat
  names : List String
  deriving Repr, DecidableEq

def saveProgress (st : SysState) : Snapshot :=
  { totalRequests := st.totalRequests,
    totalNames := st.discovered.length,
    names := st.discovered }

/-! ### Helper lemmas about the expansion fold -/

lemma enqueue_visited_eq (st : SysState) (p : String) :
    (enqueue st p).visited = st.visited := by
  unfold enqueue
  split <;> rfl

lemma enqueue_discovered_eq (st : SysState) (p : String) :
    (enqueue st p).discovered = st.discovered := by
  unfold enqueue
  split <;> rfl

lemma enqueue_totalRequests_eq (st : SysState) (p : String) :
    (enqueue st p).totalRequests = st.totalRequests := by
  unfold enqueue
  split <;> rfl

lemma enqueue_queue_eq (st : SysState) (p : String) :
    (enqueue st p).queue
      = st.queue ++ if p ∈ st.visited then [] else [p] := by
  unfold enqueue
  split <;> simp

/-- The expansion fold appends, in order, exactly the not-yet-visited
children and leaves every other field unchanged. -/
lemma expand_fold_spec (chars : List String) (st : SysState) (p : String) :
    ((chars.foldl (fun s c => enqueue s (p ++ c)) st).queue
        = st.queue
          ++ (chars.filter (fun c => !decide ((p ++ c) ∈ st.visited))).map
              (fun c => p ++ c))
    ∧ (chars.foldl (fun s c => enqueue s (p ++ c)) st).visited = st.visited
    ∧ (chars.foldl (fun s c => enqueue s (p ++ c)) st).discovered = st.discovered
    ∧ (chars.foldl (fun s c => enqueue s (p ++ c)) st).totalRequests
        = st.totalRequests := by
  induction chars generalizing st with
  | nil => simp
  | cons c rest ih =>
    simp only [List.foldl_cons, List.filter_cons]
    rcases ih (enqueue st (p ++ c)) with ⟨hq, hv, hd, ht⟩
    rw [hq, hv, hd, ht, enqueue_visited_eq, enqueue_discovered_eq,
      enqueue_totalRequests_eq, enqueue_queue_eq]
    by_cases hm : (p ++ c) ∈ st.visited
    · simp [hm]
    · simp [hm]

lemma length_filter_not_eq (l : List String) (f : String → Bool) :
    (l.filter (fun x => !f x)).length = l.length - (l.filter f).length := by
  induction l with
  | nil => rfl
  | cons x xs ih =>
    have hle : (xs.filter f).length ≤ xs.length := List.length_filter_le f xs
    by_cases hx : f x = true
    · simp [List.filter_cons, hx, ih]
      try omega
    · have hx' : f x = false := by
        cases hfx : f x
        · rfl
        · exact absurd hfx hx
      simp [List.filter_cons, hx', ih]
      try omega

/-- No prefix equals one of its own children: every entry of
`VALID_CHARACTERS` is nonempty, so `p ++ c` is strictly longer than `p`. -/
lemma child_ne_self (p c : String) (hc : c ∈ VALID_CHARACTERS) :
    p ++ c ≠ p := by
  intro h
  have hlen : (p ++ c).length = p.length + c.length := String.length_append p c
  have hpos : 0 < c.length := by
    revert hc
    unfold VALID_CHARACTERS
    intro hc
    fin_cases hc <;> decide
  rw [h] at hlen
  omega

/-! ## Claims about the frontier and the aggregator -/

/-- C2 (counterexample): the claim that a prefix is inserted into
`VisitedSet` at enqueue time, so that N>1 enqueues yield exactly one
Task, is false.  The enqueue site only CHECKS `visitedPrefixes`; after
enqueueing "a" into the initial state, "a" is still not visited, and a
second enqueue of "a" schedules a second Task: two Tasks for the same
prefix enter the dispatcher. -/
theorem C2_enqueue_inserts_visited_cex :
    (enqueue initialState "a").visited = []
    ∧ (enqueue (enqueue initialState "a") "a").queue = ["a", "a"] := by
  constructor <;> rfl

lemma processPrefix_visited_mem (oracle : String → List String) (st : SysState)
    (p : String) : p ∈ (processPrefix oracle st p).visited := by
  unfold processPrefix
  by_cases hv : p ∈ st.visited
  · rw [if_pos hv]
    exact hv
  · rw [if_neg hv]
    by_cases hcap : (oracle p).length = MAX_RESULTS_PER_QUERY
    · rw [if_pos hcap, (expand_fold_spec VALID_CHARACTERS _ p).2.1]
      simp
    · rw [if_neg hcap]
      simp

/-- C2 (amended): the visited check happens both at the enqueue site and
at the start of `processPrefix`, but the insertion into `VisitedSet`
happens only when the Task runs.  Enqueueing a prefix already in
`VisitedSet` schedules no Task; enqueueing an unvisited prefix appends a
Task without touching `VisitedSet` (so duplicate enqueues before the
first run schedule duplicate Tasks); and processing is at-most-once:
running a Task for an already-visited prefix is a no-op, a processed
prefix is in `VisitedSet`, and processing the same prefix a second time
changes nothing. -/
theorem C2_at_most_once_processing (oracle : String → List String)
    (st : SysState) (p : String) :
    (p ∈ st.visited → enqueue st p = st)
    ∧ (p ∉ st.visited → (enqueue st p).queue = st.queue ++ [p]
        ∧ (enqueue st p).visited = st.visited)
    ∧ (p ∈ st.visited → processPrefix oracle st p = st)
    ∧ p ∈ (processPrefix oracle st p).visited
    ∧ processPrefix oracle (processPrefix oracle st p) p
        = processPrefix oracle st p := by
  have hnoop : ∀ s : SysState, p ∈ s.visited → processPrefix oracle s p = s := by
    intro s hs
    unfold processPrefix
    rw [if_pos hs]
  refine ⟨?_, ?_, hnoop st, processPrefix_visited_mem oracle st p, ?_⟩
  · intro h
    unfold enqueue
    rw [if_pos h]
  · intro h
    unfold enqueue
    rw [if_neg h]
    exact ⟨rfl, rfl⟩
  · exact hnoop _ (processPrefix_visited_mem oracle st p)

/-- Witness for C2 (amended) at concrete inputs: processing "a" once from
the initial state marks it visited, reprocessing it is a no-op, and an
enqueue of the now-visited "a" schedules nothing. -/
theorem C2_at_most_once_processing_witness :
    ("a" ∈ (processPrefix (fun _ => []) initialState "a").visited
      ∧ processPrefix (fun _ => [])
          (processPrefix (fun _ => []) initialState "a") "a"
        = processPrefix (fun _ => []) initialState "a")
    ∧ enqueue (processPrefix (fun _ => []) initialState "a") "a"
        = processPrefix (fun _ => []) initialState "a" :=
  ⟨⟨(C2_at_most_once_processing (fun _ => []) initialState "a").2.2.2.1,
    (C2_at_most_once_processing (fun _ => []) initialState "a").2.2.2.2⟩,
   (C2_at_most_once_processing (fun _ => [])
       (processPrefix (fun _ => []) initialState "a") "a").1 (by decide)⟩

/-- C4: correct expansion.  When the query for an unvisited prefix `p`
returns exactly `MAX_RESULTS_PER_QUERY` items, the task queue grows by
exactly the children `p ++ c` whose `c` ranges, in the fixed alphabet
order, over the characters whose child is not already visited — that is,
by `|alphabet| − (number of already-visited children)` new tasks. -/
theorem C4_correct_expansion (oracle : String → List String) (st : SysState)
    (p : String) (hv : p ∉ st.visited)
    (hcap : (oracle p).length = MAX_RESULTS_PER_QUERY) :
    (processPrefix oracle st p).queue
      = st.queue ++ (VALID_CHARACTERS.filter
          (fun c => !decide ((p ++ c) ∈ st.visited))).map (fun c => p ++ c)
    ∧ (processPrefix oracle st p).queue.length
      = st.queue.length
        + (VALID_CHARACTERS.length
            - (VALID_CHARACTERS.filter
                (fun c => decide ((p ++ c) ∈ st.visited))).length) := by
  have hfilter : VALID_CHARACTERS.filter
        (fun c => !decide ((p ++ c) ∈ st.visited ++ [p]))
      = VALID_CHARACTERS.filter (fun c => !decide ((p ++ c) ∈ st.visited)) := by
    apply List.filter_congr
    intro c hc
    have hne := child_ne_self p c hc
    simp [List.mem_append, hne]
  have hmain : (processPrefix oracle st p).queue
      = st.queue ++ (VALID_CHARACTERS.filter
          (fun c => !decide ((p ++ c) ∈ st.visited))).map (fun c => p ++ c) := by
    unfold processPrefix
    rw [if_neg hv, if_pos hcap,
      (expand_fold_spec VALID_CHARACTERS _ p).1]
    exact congrArg (fun l => st.queue ++ l.map (fun c => p ++ c)) hfilter
  refine ⟨hmain, ?_⟩
  rw [hmain]
  simp [length_filter_not_eq]

/-- Witness for C4: expanding "a" from the initial state with a full page
of 15 results enqueues all 40 children in alphabet order. -/
theorem C4_correct_expansion_witness :
    (processPrefix (fun _ => List.replicate 15 "r") initialState "a").queue
      = (VALID_CHARACTERS.filter
          (fun c => !decide (("a" ++ c) ∈ initialState.visited))).map
            (fun c => "a" ++ c)
    ∧ (processPrefix (fun _ => List.replicate 15 "r") initialState "a").queue.length
      = VALID_CHARACTERS.length
        - (VALID_CHARACTERS.filter
            (fun c => decide (("a" ++ c) ∈ initialState.visited))).length := by
  have h := C4_correct_expansion (fun _ => List.replicate 15 "r") initialState "a"
    (by decide) (by decide)
  simpa [initialState] using h

/-- C5: leaf pruning.  When the query for a prefix resolves to fewer than
`MAX_RESULTS_PER_QUERY` items — including zero items and the empty array
produced by a terminal failure — no child task is enqueued: the task
queue is unchanged. -/
theorem C5_leaf_pruning (oracle : String → List String) (st : SysState)
    (p : String) (h : (oracle p).length < MAX_RESULTS_PER_QUERY) :
    (processPrefix oracle st p).queue = st.queue := by
  unfold processPrefix
  by_cases hv : p ∈ st.visited
  · rw [if_pos hv]
  · rw [if_neg hv, if_neg (by omega)]

/-- Witness for C5: a terminal-failure empty result for "a" enqueues no
child. -/
theorem C5_leaf_pruning_witness :
    (processPrefix (fun _ => []) initialState "a").queue = initialState.queue :=
  C5_leaf_pruning (fun _ => []) initialState "a" (by decide)

/-! ## Claim about snapshots -/

lemma subset_foldl_setAdd (rs l : List String) : l ⊆ rs.foldl setAdd l := by
  induction rs generalizing l with
  | nil => exact fun x hx => hx
  | cons r rest ih =>
    refine List.Subset.trans ?_ (ih (setAdd l r))
    unfold setAdd
    split
    · exact fun x hx => hx
    · exact List.subset_append_left _ _

lemma processPrefix_mono (oracle : String → List String) (st : SysState)
    (p : String) :
    st.discovered ⊆ (processPrefix oracle st p).discovered
    ∧ st.totalRequests ≤ (processPrefix oracle st p).totalRequests := by
  unfold processPrefix
  by_cases hv : p ∈ st.visited
  · rw [if_pos hv]
    exact ⟨fun x hx => hx, Nat.le_refl _⟩
  · rw [if_neg hv]
    by_cases hcap : (oracle p).length = MAX_RESULTS_PER_QUERY
    · rw [if_pos hcap]
      refine ⟨?_, ?_⟩
      · rw [(expand_fold_spec VALID_CHARACTERS _ p).2.2.1]
        exact subset_foldl_setAdd _ _
      · rw [(expand_fold_spec VALID_CHARACTERS _ p).2.2.2]
        exact Nat.le_succ _
    · rw [if_neg hcap]
      exact ⟨subset_foldl_setAdd _ _, Nat.le_succ _⟩

lemma runSteps_mono (oracle : String → List String) (st : SysState)
    (ps : List String) :
    st.discovered ⊆ (runSteps oracle st ps).discovered
    ∧ st.totalRequests ≤ (runSteps oracle st ps).totalRequests := by
  induction ps generalizing st with
  | nil => exact ⟨fun x hx => hx, Nat.le_refl _⟩
  | cons q rest ih =>
    have h1 := processPrefix_mono oracle st q
    have h2 := ih (processPrefix oracle st q)
    exact ⟨List.Subset.trans h1.1 h2.1, Nat.le_trans h1.2 h2.2⟩

/-- C9: snapshot monotonicity.  `discoveredNames` and `totalRequests`
only ever grow during a run, and each snapshot is a full overwrite of the
current aggregate state, so for a snapshot taken after processing `ps`
and a later snapshot taken after further processing `qs`, the earlier
name list is contained in the later one and the request counters are
ordered. -/
theorem C9_snapshot_monotonicity (oracle : String → List String)
    (st : SysState) (ps qs : List String) :
    (saveProgress (runSteps oracle st ps)).names
        ⊆ (saveProgress (runSteps oracle (runSteps oracle st ps) qs)).names
    ∧ (saveProgress (runSteps oracle st ps)).totalRequests
        ≤ (saveProgress (runSteps oracle (runSteps oracle st ps) qs)).totalRequests :=
  runSteps_mono oracle (runSteps oracle st ps) qs

/-! ## Rate-limited dispatcher (queue construction, ExtractV3.js lines 38-43) -/

/-- Modelled from the spec: the Rate-Limited Dispatcher itself lives in
the external `p-queue` dependency; src/ExtractV3.js lines 38-43 only
configure it with `intervalCap: 80` requests per `interval: 60000` ms.
Per the spec, the RateWindow "resets per fixed interval, matching the
configured granularity": time is divided into fixed buckets of
`INTERVAL_MS` milliseconds, and a dispatch attempt at time `t` is
admitted exactly when fewer than `INTERVAL_CAP` requests have already
been dispatched within `t`'s bucket.  `admittedTimes attempts curBucket
curCount` returns the timestamps of the requests actually dispatched,
given the (time-ordered) timestamps of the successive dispatch attempts
and the current bucket index and in-bucket dispatch count. -/
def admittedTimes : List Nat → Nat → Nat → List Nat
  | [], _, _ => []
  | t :: rest, curBucket, curCount =>
    if (if t / INTERVAL_MS = curBucket then curCount else 0) < INTERVAL_CAP then
      t :: admittedTimes rest (t / INTERVAL_MS)
          ((if t / INTERVAL_MS = curBucket then curCount else 0) + 1)
    else
      admittedTimes rest (t / INTERVAL_MS)
          (if t / INTERVAL_MS = curBucket then curCount else 0)

lemma filter_window_cons_length (t : Nat) (A : List Nat) (k : Nat) :
    ((t :: A).filter (fun u => decide (u / INTERVAL_MS = k))).length
      = (if t / INTERVAL_MS = k then 1 else 0)
        + (A.filter (fun u => decide (u / INTERVAL_MS = k))).length := by
  by_cases h : t / INTERVAL_MS = k
  · simp [List.filter_cons, h]
    try omega
  · simp [List.filter_cons, h]
    try omega

/-- Core invariant of the bucketed rate window: starting from a state
that already counts `c0 ≤ INTERVAL_CAP` dispatches in bucket `b0`, with
all attempt times in bucket `b0` or later and nondecreasing, every
bucket receives at most `INTERVAL_CAP` admitted requests (at most
`INTERVAL_CAP − c0` further ones for `b0`), and buckets before `b0`
receive none. -/
lemma admitted_bucket_bound (attempts : List Nat) :
    ∀ b0 c0, List.Pairwise (· ≤ ·) attempts →
    (∀ t ∈ attempts, b0 ≤ t / INTERVAL_MS) → c0 ≤ INTERVAL_CAP → ∀ k,
    ((if k = b0 then c0 else 0)
        + ((admittedTimes attempts b0 c0).filter
            (fun u => decide (u / INTERVAL_MS = k))).length ≤ INTERVAL_CAP)
    ∧ (k < b0 → ((admittedTimes attempts b0 c0).filter
            (fun u => decide (u / INTERVAL_MS = k))).length = 0) := by
  induction attempts with
  | nil =>
    intro b0 c0 _ _ hc0 k
    constructor
    · simp only [admittedTimes, List.filter_nil, List.length_nil, Nat.add_zero]
      split <;> omega
    · intro _
      simp [admittedTimes]
  | cons t rest ih =>
    intro b0 c0 hsort hlb hc0 k
    have hb : b0 ≤ t / INTERVAL_MS := hlb t (List.mem_cons_self _ _)
    obtain ⟨hhead, hrest_sort⟩ := List.pairwise_cons.mp hsort
    have hlb2 : ∀ u ∈ rest, t / INTERVAL_MS ≤ u / INTERVAL_MS :=
      fun u hu => Nat.div_le_div_right (hhead u hu)
    by_cases hbe : t / INTERVAL_MS = b0
    · by_cases hcnt : c0 < INTERVAL_CAP
      · have hstep : admittedTimes (t :: rest) b0 c0
            = t :: admittedTimes rest b0 (c0 + 1) := by
          simp [admittedTimes, hbe, hcnt]
        obtain ⟨ih1, ih2⟩ :=
          ih b0 (c0 + 1) hrest_sort (fun u hu => hbe ▸ hlb2 u hu) hcnt k
        constructor
        · rw [hstep, filter_window_cons_length]
          by_cases hk : k = b0
          · have e1 : (if k = b0 then c0 else 0) = c0 := if_pos hk
            have e2 : (if t / INTERVAL_MS = k then 1 else 0) = 1 := if_pos (by omega)
            rw [if_pos hk] at ih1
            rw [e1, e2]
            omega
          · have e1 : (if k = b0 then c0 else 0) = 0 := if_neg hk
            have e2 : (if t / INTERVAL_MS = k then 1 else 0) = 0 := if_neg (by omega)
            rw [if_neg hk] at ih1
            rw [e1, e2]
            omega
        · intro hklt
          rw [hstep]
          have hne : ¬(t / INTERVAL_MS = k) := by omega
          simp [List.filter_cons, hne, ih2 hklt]
      · have hstep : admittedTimes (t :: rest) b0 c0
            = admittedTimes rest b0 c0 := by
          simp [admittedTimes, hbe, hcnt]
        rw [hstep]
        exact ih b0 c0 hrest_sort (fun u hu => hbe ▸ hlb2 u hu) hc0 k
    · have hblt : b0 < t / INTERVAL_MS := Nat.lt_of_le_of_ne hb (fun h => hbe h.symm)
      have hstep : admittedTimes (t :: rest) b0 c0
          = t :: admittedTimes rest (t / INTERVAL_MS) 1 := by
        simp [admittedTimes, hbe, INTERVAL_CAP]
      obtain ⟨ih1, ih2⟩ := ih (t / INTERVAL_MS) 1 hrest_sort hlb2
        (by decide : 1 ≤ INTERVAL_CAP) k
      constructor
      · rw [hstep, filter_window_cons_length]
        by_cases hk1 : k = t / INTERVAL_MS
        · have e1 : (if k = b0 then c0 else 0) = 0 := if_neg (by omega)
          have e2 : (if t / INTERVAL_MS = k then 1 else 0) = 1 := if_pos hk1.symm
          rw [if_pos hk1] at ih1
          rw [e1, e2]
          omega
        · have e2 : (if t / INTERVAL_MS = k then 1 else 0) = 0 :=
            if_neg (fun h => hk1 h.symm)
          rw [if_neg hk1] at ih1
          by_cases hk2 : k = b0
          · have e1 : (if k = b0 then c0 else 0) = c0 := if_pos hk2
            have hx := ih2 (by omega)
            rw [e1, e2, hx]
            omega
          · have e1 : (if k = b0 then c0 else 0) = 0 := if_neg hk2
            rw [e1, e2]
            omega
      · intro hklt
        rw [hstep, filter_window_cons_length]
        rw [if_neg (by omega : ¬ t / INTERVAL_MS = k), ih2 (by omega)]

/-- C8 (amended): for every fixed window bucket
`[k * INTERVAL_MS, (k+1) * INTERVAL_MS)` of the configured length, the
number of requests dispatched within it never exceeds `INTERVAL_CAP`,
for every time-ordered sequence of dispatch attempts; no request is
dispatched while the current bucket's capacity is exhausted. -/
theorem C8_fixed_window_cap (attempts : List Nat)
    (hsort : List.Pairwise (· ≤ ·) attempts) (k : Nat) :
    ((admittedTimes attempts 0 0).filter
        (fun u => decide (u / INTERVAL_MS = k))).length ≤ INTERVAL_CAP := by
  obtain ⟨h1, _⟩ := admitted_bucket_bound attempts 0 0 hsort
    (fun t _ => Nat.zero_le _) (Nat.zero_le _) k
  by_cases hk : k = 0
  · rw [if_pos hk] at h1
    omega
  · rw [if_neg hk] at h1
    omega

/-- Witness for C8 (amended) at a concrete attempt list. -/
theorem C8_fixed_window_cap_witness :
    ((admittedTimes [0, 30000] 0 0).filter
        (fun u => decide (u / INTERVAL_MS = 0))).length ≤ INTERVAL_CAP :=
  C8_fixed_window_cap [0, 30000] (by decide) 0

/-- A burst of 80 attempts at the end of the first interval bucket
followed by 80 attempts at the start of the second. -/
def burstAttempts : List Nat :=
  List.replicate 80 59999 ++ List.replicate 80 60000

lemma pairwise_le_replicate (n a : Nat) :
    List.Pairwise (· ≤ ·) (List.replicate n a) := by
  induction n with
  | zero => simp
  | succ m ih =>
    rw [List.replicate_succ]
    refine List.pairwise_cons.mpr ⟨?_, ih⟩
    intro b hb
    exact Nat.le_of_eq (List.eq_of_mem_replicate hb).symm

lemma burstAttempts_sorted : List.Pairwise (· ≤ ·) burstAttempts := by
  unfold burstAttempts
  refine List.pairwise_append.mpr
    ⟨pairwise_le_replicate _ _, pairwise_le_replicate _ _, ?_⟩
  intro x hx y hy
  rw [List.eq_of_mem_replicate hx, List.eq_of_mem_replicate hy]
  omega

set_option maxRecDepth 8000

/-- C8 (counterexample): the claim as stated — at most `INTERVAL_CAP`
dispatches in ANY window of `INTERVAL_MS` milliseconds — is false for
the fixed-interval window the queue is configured with.  The time-ordered
attempt burst `burstAttempts` is fully admitted (each half lies in its
own bucket), so the sliding window `[59999, 59999 + INTERVAL_MS)`
contains 160 dispatched requests, twice the configured cap. -/
theorem C8_sliding_window_cex :
    List.Pairwise (· ≤ ·) burstAttempts
    ∧ ((admittedTimes burstAttempts 0 0).filter
        (fun u => decide (59999 ≤ u ∧ u < 59999 + INTERVAL_MS))).length = 160
    ∧ INTERVAL_CAP < 160 := by
  refine ⟨burstAttempts_sorted, by rfl, by decide⟩

end ExtractV3
